import Mathlib

/-!
Verification development for the orchestration core of the compiled
babel plugin (packages/react, babel-plugin entry file).  The definitions
below are a shallow embedding of that file: pure functions mirror the
source functions, the per-file mutable plugin state is threaded
explicitly, and tree mutations are modelled as explicit events and
list transformations.  External collaborators (babel path objects, the
node path library, the extraction handlers) are modelled either
parametrically or as event flags, exactly at the granularity the
verified properties need.
-/

/-- The fixed default module origin, DEFAULT_IMPORT_SOURCE in the source. -/
def DEFAULT_IMPORT_SOURCE : String := "@compiled/react"

/-- JavaScript whitespace class used by the pragma patterns. -/
def isJsWs (c : Char) : Bool :=
  c == ' ' || c == '\t' || c == '\n' || c == '\r' || c == '\x0b' || c == '\x0c'

/-- One attempted pragma match at a fixed start position.  Models the
regex fragment star-opt, ws-star, literal, ws-plus, capture of a
maximal nonempty run of non-whitespace, which is the shape of both
JSX_SOURCE_ANNOTATION_REGEX and JSX_ANNOTATION_REGEX. -/
def pragmaTryAt (lit : List Char) (cs : List Char) : Option (List Char) :=
  let cs1 := match cs with
    | '*' :: rest => rest
    | _ => cs
  let cs2 := cs1.dropWhile isJsWs
  if lit.isPrefixOf cs2 then
    let cs3 := cs2.drop lit.length
    match cs3 with
    | c :: _ =>
      if isJsWs c then
        let cap := (cs3.dropWhile isJsWs).takeWhile (fun d => !isJsWs d)
        if cap.isEmpty then none else some cap
      else none
    | [] => none
  else none

/-- Leftmost-match scan of a comment body, as RegExp.exec does. -/
def pragmaScan (lit : List Char) : List Char → Option (List Char)
  | [] => pragmaTryAt lit []
  | c :: rest =>
    match pragmaTryAt lit (c :: rest) with
    | some cap => some cap
    | none => pragmaScan lit rest

/-- The first capturing group of the pragma regex built over the given
literal annotation name, or none when the comment does not match. -/
def execPragma (lit : String) (s : String) : Option String :=
  (pragmaScan lit.toList s.toList).map (fun cs => String.mk cs)

/-- Scan for the xcss text pattern, modelling the regex test
(x or X) followed by the literal characters css= and an opening brace,
from Program.enter. -/
def xcssScan : List Char → Bool
  | [] => false
  | c :: rest =>
    ((c == 'x' || c == 'X') && List.isPrefixOf "css=\x7b".toList rest) || xcssScan rest

def testXcss (s : String) : Bool := xcssScan s.toList

/-- Case-insensitive prefix comparison of character lists. -/
def ciPrefix : List Char → List Char → Bool
  | [], _ => true
  | _ :: _, [] => false
  | p :: ps, c :: cs => (p.toLower == c.toLower) && ciPrefix ps cs

def ciScan (pat : List Char) : List Char → Bool
  | [] => ciPrefix pat []
  | c :: rest => ciPrefix pat (c :: rest) || ciScan pat rest

/-- Modelled from the spec: a fully case-insensitive scan for the
special style-prop attribute followed by an opening brace.  This is
the reading of the scan that claim C7 asserts; it is compared against
testXcss, which is translated from the source regex. -/
def specXcssMatch (s : String) : Bool := ciScan "xcss=\x7b".toList s.toList

/-- The JS String.startsWith method, on the character list view. -/
def strStartsWith (s p : String) : Bool := p.toList.isPrefixOf s.toList

/-- The JS String.endsWith method, on the character list view. -/
def strEndsWith (s p : String) : Bool := p.toList.isSuffixOf s.toList

def splitSlashAux : List Char → List Char → List String
  | [], acc => [String.mk acc.reverse]
  | c :: rest, acc =>
    if c = '/' then String.mk acc.reverse :: splitSlashAux rest []
    else splitSlashAux rest (c :: acc)

/-- Split a path string on slash characters. -/
def splitSlash (s : String) : List String := splitSlashAux s.toList []

/-- The node path-library operations the plugin uses.  They are an
external library, so the development is parametric in them; posixOps
below is a concrete executable instantiation used by witnesses. -/
structure PathOps where
  basename : String → String
  dirname : String → String
  resolve : String → String → String
  join : String → String → String

/-- Normalize path segments: drop empty and dot segments, let a
dotdot segment cancel the previous one when possible. -/
def normSegs (segs : List String) : List String :=
  segs.foldl
    (fun acc seg =>
      if seg = "" || seg = "." then acc
      else if seg = ".." then
        match acc.getLast? with
        | some lastSeg => if lastSeg = ".." then acc ++ [seg] else acc.dropLast
        | none => acc ++ [seg]
      else acc ++ [seg])
    []

def posixJoin (a b : String) : String :=
  let core := String.intercalate "/" (normSegs (splitSlash a ++ splitSlash b))
  if strStartsWith a "/" then "/" ++ core else core

def posixResolve (dir rel : String) : String :=
  if strStartsWith rel "/" then
    "/" ++ String.intercalate "/" (normSegs (splitSlash rel))
  else posixJoin dir rel

def posixBasename (s : String) : String :=
  ((splitSlash s).filter (fun seg => seg ≠ "")).getLastD ""

def posixDirname (s : String) : String :=
  let parts := splitSlash s
  if parts.length ≤ 1 then "."
  else
    let core := String.intercalate "/" parts.dropLast
    if core = "" then (if strStartsWith s "/" then "/" else ".") else core

def posixOps : PathOps :=
  { basename := posixBasename
    dirname := posixDirname
    resolve := posixResolve
    join := posixJoin }

/-- The unique helper from the utils package: de-duplication that
preserves first-occurrence order. -/
def jsUnique (l : List String) : List String :=
  l.foldl (fun acc x => if acc.contains x then acc else acc ++ [x]) []

/-- The compiledImports record: a JS object mapping API names to the
local binding name.  Presence of the record itself is tracked
separately with Option. -/
def CompiledImports : Type := String → Option String

def emptyImports : CompiledImports := fun _ => none

def setImport (ci : CompiledImports) (name localName : String) : CompiledImports :=
  fun a => if a = name then some localName else ci a

structure PragmaFlags where
  jsxImportSource : Bool
  jsx : Bool
deriving DecidableEq

/-- Plugin options relevant to the modelled core. -/
structure PluginOpts where
  cache : Option Bool := none
  importSources : Option (List String) := none
  importReact : Option Bool := none
  processXcss : Option Bool := none
  hasOnIncludedFiles : Bool := false

inductive CleanupAct where
  | remove
  | replace
deriving DecidableEq

structure CleanupItem where
  nodeId : Nat
  action : CleanupAct
deriving DecidableEq

/-- The per-file plugin state built by pre() and mutated during the
traversal.  The cache slot is modelled separately (CacheWorld) because
cache identity is a process-wide concern. -/
structure PState where
  compiledImports : Option CompiledImports
  usesXcss : Bool
  pragma : PragmaFlags
  pathsToCleanup : List CleanupItem
  includedFiles : List String
  importSources : List String
  opts : PluginOpts
  filename : Option String

/-- this.importSources as assembled in pre(): the default origin plus
configured origins, relative ones joined onto the root path. -/
def mkImportSources (ops : PathOps) (root : String) (cfg : Option (List String)) : List String :=
  DEFAULT_IMPORT_SOURCE ::
    (match cfg with
     | some origins =>
       origins.map (fun origin =>
         if strStartsWith origin "." then ops.join root origin else origin)
     | none => [])

/-- The state fields pre() writes, apart from cache selection. -/
def mkState (ops : PathOps) (rootOpt : Option String) (cwd : String) (opts : PluginOpts)
    (filename : Option String) : PState :=
  { compiledImports := none
    usesXcss := false
    pragma := { jsxImportSource := false, jsx := false }
    pathsToCleanup := []
    includedFiles := []
    importSources := mkImportSources ops (rootOpt.getD cwd) opts.importSources
    opts := opts
    filename := filename }

/-- Cache allocation world: new Cache() allocation is modelled as a
fresh identifier, and the module-level globalCache variable holds the
identifier it was last assigned. -/
structure CacheWorld where
  nextCacheId : Nat
  globalCache : Option Nat
deriving DecidableEq

/-- The cache-selection slice of pre(): with opts.cache strictly equal
to true a fresh Cache is allocated and stored in globalCache, and that
instance is used; otherwise a fresh Cache is used directly. -/
def preAllocCache (cacheOpt : Option Bool) (w : CacheWorld) : Nat × CacheWorld :=
  if cacheOpt = some true then
    (w.nextCacheId, { nextCacheId := w.nextCacheId + 1, globalCache := some w.nextCacheId })
  else
    (w.nextCacheId, { nextCacheId := w.nextCacheId + 1, globalCache := w.globalCache })

/-- Processing of one leading comment in Program.enter: both pragma
regexes are tested; the source annotation must capture exactly the
default import source, the generic annotation must capture exactly
the word jsx. -/
def enterComment (st : PState) (comment : String) : PState :=
  let jsxSourceMatches := execPragma "@jsxImportSource" comment
  let jsxMatches := execPragma "@jsx" comment
  let st1 :=
    if jsxSourceMatches = some DEFAULT_IMPORT_SOURCE then
      { st with
        compiledImports := some emptyImports
        pragma := { st.pragma with jsxImportSource := true } }
    else st
  if jsxMatches = some "jsx" then
    { st1 with pragma := { st1.pragma with jsx := true } }
  else st1

/-- Program.enter: fold the comment loop over all leading comments,
then run the raw-text xcss scan gated on the processXcss option. -/
def programEnter (comments : List String) (code : String) (st : PState) : PState :=
  let st1 := comments.foldl enterComment st
  let processXcss := st1.opts.processXcss.getD true
  if processXcss && testXcss code then { st1 with usesXcss := true } else st1

/-- The per-origin test inside the isCompiledModule some-call of the
ImportDeclaration visitor. -/
def originMatches (ops : PathOps) (filename : Option String) (userLandModule : String)
    (compiledModuleOrigin : String) : Bool :=
  if userLandModule == DEFAULT_IMPORT_SOURCE || compiledModuleOrigin == userLandModule then true
  else
    match filename with
    | some f =>
      if f != "" && strStartsWith userLandModule "." &&
          strEndsWith userLandModule (ops.basename compiledModuleOrigin) then
        ops.resolve (ops.dirname f) userLandModule == compiledModuleOrigin
      else false
    | none => false

/-- isCompiledModule from the ImportDeclaration visitor. -/
def isCompiledModule (ops : PathOps) (importSources : List String) (filename : Option String)
    (userLandModule : String) : Bool :=
  importSources.any (originMatches ops filename userLandModule)

inductive ImportedName where
  | ident (name : String)
  | strLit (value : String)
deriving DecidableEq

inductive Specifier where
  | importSpecifier (imported : ImportedName) (localName : String)
  | importDefaultSpecifier (localName : String)
  | importNamespaceSpecifier (localName : String)
deriving DecidableEq

structure ImportDecl where
  source : String
  specifiers : List Specifier
deriving DecidableEq

/-- The five fixed API names tested by the ImportDeclaration visitor. -/
def apiNames : List String := ["styled", "ClassNames", "css", "keyframes", "cssMap"]

/-- Test of one named specifier against one API name: the imported
name must be an identifier whose name equals the API name. -/
def matchesApi (s : Specifier) (apiName : String) : Bool :=
  match s with
  | .importSpecifier (.ident n) _ => n == apiName
  | _ => false

def specLocal (s : Specifier) : String :=
  match s with
  | .importSpecifier _ l => l
  | .importDefaultSpecifier l => l
  | .importNamespaceSpecifier l => l

def isImportSpecifier (s : Specifier) : Bool :=
  match s with
  | .importSpecifier _ _ => true
  | _ => false

/-- The inner forEach over the five API names for one specifier path:
on a match the API is recorded under its local name and the specifier
path is removed (a removed path has a null node, modelled by the
removed flag guarding later iterations). -/
def processSpecifier (ci : CompiledImports) (s : Specifier) : CompiledImports × Bool :=
  apiNames.foldl
    (fun acc apiName =>
      if !acc.2 && matchesApi s apiName then (setImport acc.1 apiName (specLocal s), true)
      else acc)
    (ci, false)

/-- One step of the outer forEach over specifier paths: non-named
specifiers are skipped (kept), named specifiers are run through the
API-name loop and dropped from the declaration when matched. -/
def importStep (acc : CompiledImports × List Specifier) (s : Specifier) :
    CompiledImports × List Specifier :=
  if !isImportSpecifier s then (acc.1, acc.2 ++ [s])
  else
    let out := processSpecifier acc.1 s
    (out.1, if out.2 then acc.2 else acc.2 ++ [s])

/-- The ImportDeclaration visitor.  Returns the declaration after the
visit (none when the whole node was removed) together with the
compiledImports slot of the state. -/
def processImportDeclaration (ops : PathOps) (importSources : List String)
    (filename : Option String) (ci : Option CompiledImports) (decl : ImportDecl) :
    Option ImportDecl × Option CompiledImports :=
  if !isCompiledModule ops importSources filename decl.source then (some decl, ci)
  else
    let ci0 := ci.getD emptyImports
    let res := decl.specifiers.foldl importStep (ci0, [])
    if res.2 = [] then (none, some res.1)
    else (some { decl with specifiers := res.2 }, some res.1)

/-- The API name a specifier matches, if any: a named import
specifier whose imported identifier is one of the five fixed names. -/
def specApiName (s : Specifier) : Option String :=
  match s with
  | .importSpecifier (.ident n) _ => if n ∈ apiNames then some n else none
  | _ => none

def matchesAnyApi (s : Specifier) : Bool := apiNames.any (matchesApi s)

/-- A specifier survives the visitor iff it matches none of the five
API names. -/
def keepSpec (s : Specifier) : Bool := !matchesAnyApi s

/-- The local name recorded for an API name after processing a
specifier list: the local name of the last matching specifier. -/
def lastLocal (a : String) : List Specifier → Option String
  | [] => none
  | s :: rest => (lastLocal a rest).or (if matchesApi s a then some (specLocal s) else none)

/-- One call or tagged-template expression node, as seen by the
dispatcher.  The seven classification predicates live in the external
is-compiled utils module, so they are modelled as attributes of the
node. -/
structure ExprNode where
  id : Nat
  isCssMapCall : Bool
  isCssTagged : Bool
  isStyledTagged : Bool
  isCssCall : Bool
  isStyledCall : Bool
  isKeyframesTagged : Bool
  isKeyframesCall : Bool
deriving DecidableEq

def hasStyles (n : ExprNode) : Bool :=
  n.isCssTagged || n.isStyledTagged || n.isCssCall || n.isStyledCall

def isCompiledUtil (n : ExprNode) : Bool :=
  n.isCssTagged || n.isKeyframesTagged || n.isCssCall || n.isKeyframesCall

def isCompiledComponent (n : ExprNode) : Bool :=
  n.isStyledTagged || n.isStyledCall

/-- Observable actions of the dispatcher and the finalization stage,
in the order they are performed. -/
inductive VisitEvent where
  | delegateCssMap
  | normalize
  | enqueueReplace (nodeId : Nat)
  | delegateStyled
  | applyAction (item : CleanupItem)
deriving DecidableEq

structure VisitOut where
  events : List VisitEvent
  queue : List CleanupItem
deriving DecidableEq

/-- The TaggedTemplateExpression-or-CallExpression visitor: cssMap
delegation first, then props normalization for style-bearing nodes,
then the util branch which only queues a replace cleanup, then the
styled-component delegation. -/
def visitExpression (n : ExprNode) (queue : List CleanupItem) : VisitOut :=
  if n.isCssMapCall then { events := [.delegateCssMap], queue := queue }
  else
    let normEvents := if hasStyles n then [VisitEvent.normalize] else []
    if isCompiledUtil n then
      { events := normEvents ++ [.enqueueReplace n.id]
        queue := queue ++ [{ nodeId := n.id, action := .replace }] }
    else if isCompiledComponent n then
      { events := normEvents ++ [.delegateStyled], queue := queue }
    else { events := normEvents, queue := queue }

/-- The single depth-first pass over all call and tagged-template
nodes, threading the plugin state and concatenating the event log. -/
def traverseFull : List ExprNode → PState → PState × List VisitEvent
  | [], st => (st, [])
  | n :: rest, st =>
    let out := visitExpression n st.pathsToCleanup
    let next := traverseFull rest { st with pathsToCleanup := out.queue }
    (next.1, out.events ++ next.2)

/-- A program node for the cleanup semantics: either an original node
carrying its identity or the null-literal placeholder. -/
inductive TreeNode where
  | node (id : Nat)
  | nullLit
deriving DecidableEq

/-- One iteration of the cleanup forEach in Program.exit: remove
deletes the target node, replace substitutes a null literal. -/
def applyCleanupItem (prog : List TreeNode) (c : CleanupItem) : List TreeNode :=
  match c.action with
  | .remove => prog.filter (fun tn => tn ≠ TreeNode.node c.nodeId)
  | .replace => prog.map (fun tn => if tn = TreeNode.node c.nodeId then TreeNode.nullLit else tn)

/-- The cleanup forEach, producing the mutated program and the log of
applied actions in application order. -/
def applyCleanups (prog : List TreeNode) (queue : List CleanupItem) :
    List TreeNode × List CleanupItem :=
  queue.foldl (fun acc c => (applyCleanupItem acc.1 c, acc.2 ++ [c])) (prog, [])

/-- Scope facts consulted by Program.exit via path.scope.getBinding. -/
structure ScopeInfo where
  hasReactBinding : Bool
  hasForwardRefBinding : Bool
deriving DecidableEq

/-- Everything Program.exit does, as an effect record: the mutated
program plus flags for each insertion, the callback payload, and the
log of applied cleanup actions. -/
structure ExitResult where
  program : List TreeNode
  preservedLeadingComments : Bool
  appendedRuntimeImports : Bool
  insertedReactImport : Bool
  insertedForwardRefImport : Bool
  addedProvenanceComment : Bool
  calledOnIncludedFiles : Option (List String)
  appliedLog : List CleanupItem

/-- Program.exit.  The gate returns the file untouched when no
compiledImports record exists and the xcss flag is off; otherwise the
finalization steps run in source order. -/
def programExit (st : PState) (scope : ScopeInfo) (prog : List TreeNode) : ExitResult :=
  if st.compiledImports.isNone && !st.usesXcss then
    { program := prog
      preservedLeadingComments := false
      appendedRuntimeImports := false
      insertedReactImport := false
      insertedForwardRefImport := false
      addedProvenanceComment := false
      calledOnIncludedFiles := none
      appliedLog := [] }
  else
    let shouldImportReact := st.opts.importReact.getD true
    let hasPragma := st.pragma.jsxImportSource || st.pragma.jsx
    let insertReact := !hasPragma && shouldImportReact && !scope.hasReactBinding
    let insertForwardRef :=
      (match st.compiledImports with
       | some ci => (ci "styled").isSome
       | none => false) && !scope.hasForwardRefBinding
    let callbackPayload :=
      if st.includedFiles.length != 0 && st.opts.hasOnIncludedFiles then
        some (jsUnique st.includedFiles)
      else none
    let cleaned := applyCleanups prog st.pathsToCleanup
    { program := cleaned.1
      preservedLeadingComments := true
      appendedRuntimeImports := true
      insertedReactImport := insertReact
      insertedForwardRefImport := insertForwardRef
      addedProvenanceComment := true
      calledOnIncludedFiles := callbackPayload
      appliedLog := cleaned.2 }

/-- C1: when no ImportBindingRecord was recorded (compiledImports is
absent) and the xcss flag is false, Program.exit performs no mutation
at all: the output tree equals the input tree, no runtime or framework
or helper import is inserted, no provenance comment is attached, no
cleanup action is applied, and the onIncludedFiles callback is not
invoked. -/
theorem exit_noop_without_import_or_xcss (st : PState) (scope : ScopeInfo)
    (prog : List TreeNode) (h1 : st.compiledImports = none) (h2 : st.usesXcss = false) :
    (programExit st scope prog).program = prog ∧
    (programExit st scope prog).preservedLeadingComments = false ∧
    (programExit st scope prog).appendedRuntimeImports = false ∧
    (programExit st scope prog).insertedReactImport = false ∧
    (programExit st scope prog).insertedForwardRefImport = false ∧
    (programExit st scope prog).addedProvenanceComment = false ∧
    (programExit st scope prog).calledOnIncludedFiles = none ∧
    (programExit st scope prog).appliedLog = [] := by
  simp [programExit, h1, h2]

theorem exit_noop_witness :
    (programExit (mkState posixOps none "/proj" {} none) ⟨false, false⟩
        [TreeNode.node 0]).program = [TreeNode.node 0] ∧
    (programExit (mkState posixOps none "/proj" {} none) ⟨false, false⟩
        [TreeNode.node 0]).preservedLeadingComments = false ∧
    (programExit (mkState posixOps none "/proj" {} none) ⟨false, false⟩
        [TreeNode.node 0]).appendedRuntimeImports = false ∧
    (programExit (mkState posixOps none "/proj" {} none) ⟨false, false⟩
        [TreeNode.node 0]).insertedReactImport = false ∧
    (programExit (mkState posixOps none "/proj" {} none) ⟨false, false⟩
        [TreeNode.node 0]).insertedForwardRefImport = false ∧
    (programExit (mkState posixOps none "/proj" {} none) ⟨false, false⟩
        [TreeNode.node 0]).addedProvenanceComment = false ∧
    (programExit (mkState posixOps none "/proj" {} none) ⟨false, false⟩
        [TreeNode.node 0]).calledOnIncludedFiles = none ∧
    (programExit (mkState posixOps none "/proj" {} none) ⟨false, false⟩
        [TreeNode.node 0]).appliedLog = [] :=
  exit_noop_without_import_or_xcss (mkState posixOps none "/proj" {} none) ⟨false, false⟩
    [TreeNode.node 0] rfl rfl

/-- C9: in a finalizing file, importReact set to false suppresses the
automatic React import unconditionally; with the option enabled (the
default), the import is inserted exactly when neither pragma flag is
set and no React binding is already in scope. -/
theorem import_react_gating (st : PState) (scope : ScopeInfo) (prog : List TreeNode)
    (hgate : st.compiledImports.isSome = true ∨ st.usesXcss = true) :
    (st.opts.importReact = some false →
      (programExit st scope prog).insertedReactImport = false) ∧
    (st.opts.importReact.getD true = true →
      ((programExit st scope prog).insertedReactImport = true ↔
        st.pragma.jsxImportSource = false ∧ st.pragma.jsx = false ∧
          scope.hasReactBinding = false)) := by
  have hcond : (st.compiledImports.isNone && !st.usesXcss) = false := by
    rcases hgate with h | h
    · simp [Option.isNone_iff_eq_none]
      intro hn
      rw [hn] at h
      simp at h
    · simp [h]
  constructor
  · intro hopt
    simp [programExit, hcond, hopt]
  · intro hopt
    simp [programExit, hcond, hopt]
    tauto

theorem import_react_gating_witness :
    (programExit
        { mkState posixOps none "/proj" {} none with compiledImports := some emptyImports }
        ⟨false, false⟩ []).insertedReactImport = true ↔
      ({ mkState posixOps none "/proj" {} none with
          compiledImports := some emptyImports } : PState).pragma.jsxImportSource = false ∧
      ({ mkState posixOps none "/proj" {} none with
          compiledImports := some emptyImports } : PState).pragma.jsx = false ∧
      (⟨false, false⟩ : ScopeInfo).hasReactBinding = false :=
  (import_react_gating
      { mkState posixOps none "/proj" {} none with compiledImports := some emptyImports }
      ⟨false, false⟩ [] (Or.inl rfl)).2 rfl

/-- C8 counterexample: two sequential compilations that both enable
the shared-cache option do not receive the same Cache instance; each
pre() run allocates a fresh Cache and overwrites globalCache with it,
so the two CompilationStates hold distinct instances. -/
theorem shared_cache_counterexample :
    (preAllocCache (some true) ⟨0, none⟩).1 ≠
      (preAllocCache (some true) (preAllocCache (some true) ⟨0, none⟩).2).1 := by
  decide

/-- C8 amended: two sequential compilations always hold distinct Cache
instances, whether or not the shared-cache option is set; when the
second compilation enables the option, the process-wide globalCache
variable ends up holding the freshly allocated instance of that second
compilation (replacing whatever it held before). -/
theorem cache_allocation (w : CacheWorld) (o1 o2 : Option Bool) :
    (preAllocCache o1 w).1 ≠ (preAllocCache o2 (preAllocCache o1 w).2).1 ∧
    (o2 = some true →
      (preAllocCache o2 (preAllocCache o1 w).2).2.globalCache =
        some ((preAllocCache o2 (preAllocCache o1 w).2).1)) := by
  have h1 : ∀ (o : Option Bool) (w : CacheWorld), (preAllocCache o w).1 = w.nextCacheId := by
    intro o w
    unfold preAllocCache
    split <;> rfl
  have h2 : ∀ (o : Option Bool) (w : CacheWorld),
      (preAllocCache o w).2.nextCacheId = w.nextCacheId + 1 := by
    intro o w
    unfold preAllocCache
    split <;> rfl
  constructor
  · rw [h1, h1, h2]
    omega
  · intro ho
    subst ho
    rw [h1]
    simp [preAllocCache]

theorem cache_allocation_witness :
    (preAllocCache (some true) ⟨0, none⟩).1 ≠
      (preAllocCache (some true) (preAllocCache (some true) ⟨0, none⟩).2).1 ∧
    (preAllocCache (some true) (preAllocCache (some true) ⟨0, none⟩).2).2.globalCache =
      some ((preAllocCache (some true) (preAllocCache (some true) ⟨0, none⟩).2).1) :=
  ⟨(cache_allocation ⟨0, none⟩ (some true) (some true)).1,
   (cache_allocation ⟨0, none⟩ (some true) (some true)).2 rfl⟩

/-- C5: classification of a call or tagged-template node is mutually
exclusive and evaluated in strict order.  A cssMap construct is only
delegated to the style-map handler; otherwise a style-utility or
keyframes construct gets exactly one replace-with-null cleanup action
enqueued and is never delegated to the styled handler; otherwise a
styled-component construct is delegated to the styled handler; and a
style-utility or styled-component construct has props normalization
applied first. -/
theorem dispatch_classification (n : ExprNode) (q : List CleanupItem) :
    (n.isCssMapCall = true →
      visitExpression n q = { events := [VisitEvent.delegateCssMap], queue := q }) ∧
    (n.isCssMapCall = false → isCompiledUtil n = true →
      (visitExpression n q).queue = q ++ [{ nodeId := n.id, action := CleanupAct.replace }] ∧
      (visitExpression n q).events =
        (if hasStyles n then [VisitEvent.normalize] else []) ++
          [VisitEvent.enqueueReplace n.id] ∧
      VisitEvent.delegateStyled ∉ (visitExpression n q).events ∧
      VisitEvent.delegateCssMap ∉ (visitExpression n q).events) ∧
    (n.isCssMapCall = false → isCompiledUtil n = false → isCompiledComponent n = true →
      (visitExpression n q).events =
        (if hasStyles n then [VisitEvent.normalize] else []) ++ [VisitEvent.delegateStyled] ∧
      (visitExpression n q).queue = q) ∧
    (n.isCssMapCall = false → isCompiledUtil n = false → isCompiledComponent n = false →
      (visitExpression n q).events = (if hasStyles n then [VisitEvent.normalize] else []) ∧
      (visitExpression n q).queue = q) ∧
    (n.isCssMapCall = false → hasStyles n = true →
      (visitExpression n q).events.head? = some VisitEvent.normalize) := by
  refine ⟨?_, ?_, ?_, ?_, ?_⟩
  · intro hm
    simp [visitExpression, hm]
  · intro hm hu
    by_cases hs : hasStyles n <;> simp [visitExpression, hm, hu, hs]
  · intro hm hu hc
    by_cases hs : hasStyles n <;> simp [visitExpression, hm, hu, hc, hs]
  · intro hm hu hc
    by_cases hs : hasStyles n <;> simp [visitExpression, hm, hu, hc, hs]
  · intro hm hs
    by_cases hu : isCompiledUtil n <;> by_cases hc : isCompiledComponent n <;>
      simp [visitExpression, hm, hu, hc, hs]

/-- A css tagged-template node with the given identity and no other
classification flags, used by concrete witnesses. -/
def utilNode (i : Nat) : ExprNode :=
  { id := i
    isCssMapCall := false
    isCssTagged := true
    isStyledTagged := false
    isCssCall := false
    isStyledCall := false
    isKeyframesTagged := false
    isKeyframesCall := false }

theorem dispatch_classification_witness :
    (visitExpression (utilNode 7) []).queue =
      [] ++ [{ nodeId := 7, action := CleanupAct.replace }] ∧
    (visitExpression (utilNode 7) []).events =
      (if hasStyles (utilNode 7) then [VisitEvent.normalize] else []) ++
        [VisitEvent.enqueueReplace 7] ∧
    VisitEvent.delegateStyled ∉ (visitExpression (utilNode 7) []).events ∧
    VisitEvent.delegateCssMap ∉ (visitExpression (utilNode 7) []).events :=
  (dispatch_classification (utilNode 7) []).2.1 rfl rfl

/-- The cleanup items the dispatcher enqueues over a node list, in
traversal order. -/
def enqueuedItems (nodes : List ExprNode) : List CleanupItem :=
  (nodes.filter (fun n => !n.isCssMapCall && isCompiledUtil n)).map
    (fun n => { nodeId := n.id, action := CleanupAct.replace })

theorem visitExpression_queue_eq (n : ExprNode) (q : List CleanupItem) :
    (visitExpression n q).queue =
      q ++ (if !n.isCssMapCall && isCompiledUtil n then
              [{ nodeId := n.id, action := CleanupAct.replace }] else []) := by
  by_cases hm : n.isCssMapCall <;> by_cases hu : isCompiledUtil n <;>
    by_cases hc : isCompiledComponent n <;> simp [visitExpression, hm, hu, hc]

theorem traverseFull_fst (nodes : List ExprNode) (st : PState) :
    (traverseFull nodes st).1 =
      { st with pathsToCleanup := st.pathsToCleanup ++ enqueuedItems nodes } := by
  induction nodes generalizing st with
  | nil =>
    cases st
    simp [traverseFull, enqueuedItems]
  | cons n rest ih =>
    simp only [traverseFull]
    rw [ih]
    rw [visitExpression_queue_eq]
    cases st
    by_cases h : !n.isCssMapCall && isCompiledUtil n <;>
      simp [enqueuedItems, List.filter_cons, h]

theorem visitExpression_no_apply (n : ExprNode) (q : List CleanupItem) (c : CleanupItem) :
    VisitEvent.applyAction c ∉ (visitExpression n q).events := by
  by_cases hm : n.isCssMapCall <;> by_cases hu : isCompiledUtil n <;>
    by_cases hc : isCompiledComponent n <;> by_cases hs : hasStyles n <;>
      simp [visitExpression, hm, hu, hc, hs]

theorem traverseFull_no_apply (nodes : List ExprNode) (st : PState) (c : CleanupItem) :
    VisitEvent.applyAction c ∉ (traverseFull nodes st).2 := by
  induction nodes generalizing st with
  | nil => simp [traverseFull]
  | cons n rest ih =>
    simp only [traverseFull, List.mem_append]
    intro hmem
    rcases hmem with h | h
    · exact visitExpression_no_apply n st.pathsToCleanup c h
    · exact ih _ h

theorem applyCleanups_aux (queue : List CleanupItem) :
    ∀ (prog : List TreeNode) (acc : List CleanupItem),
      (queue.foldl (fun a c => (applyCleanupItem a.1 c, a.2 ++ [c])) (prog, acc)).2 =
        acc ++ queue := by
  induction queue with
  | nil =>
    intro prog acc
    simp
  | cons c rest ih =>
    intro prog acc
    simp only [List.foldl]
    rw [ih]
    simp

theorem applyCleanups_snd (prog : List TreeNode) (queue : List CleanupItem) :
    (applyCleanups prog queue).2 = queue := by
  simpa [applyCleanups] using applyCleanups_aux queue prog []

theorem gate_false {st : PState}
    (h : st.compiledImports.isSome = true ∨ st.usesXcss = true) :
    (st.compiledImports.isNone && !st.usesXcss) = false := by
  rcases h with h | h
  · cases hc : st.compiledImports with
    | none =>
      rw [hc] at h
      simp at h
    | some ci => simp [hc]
  · simp [h]

theorem remove_not_mem (p : List TreeNode) (i : Nat) :
    TreeNode.node i ∉ applyCleanupItem p { nodeId := i, action := CleanupAct.remove } := by
  simp [applyCleanupItem, List.mem_filter]

theorem remove_mem_iff (p : List TreeNode) (i : Nat) (tn : TreeNode)
    (h : tn ≠ TreeNode.node i) :
    tn ∈ applyCleanupItem p { nodeId := i, action := CleanupAct.remove } ↔ tn ∈ p := by
  simp [applyCleanupItem, List.mem_filter, h]

theorem replace_getElem (p : List TreeNode) (i : Nat) (k : Nat) :
    (applyCleanupItem p { nodeId := i, action := CleanupAct.replace })[k]? =
      (p[k]?).map (fun tn => if tn = TreeNode.node i then TreeNode.nullLit else tn) := by
  simp [applyCleanupItem]

/-- C2: cleanup actions are only created during traversal (the pass
emits no application event), the queue after traversal lists them in
FIFO enqueue order regardless of node position, finalization applies
exactly that queue in that order, and applying a remove action deletes
its node while a replace action substitutes a null literal at the
position of its node. -/
theorem cleanup_fifo_lifecycle (nodes : List ExprNode) (st0 : PState) (scope : ScopeInfo)
    (prog : List TreeNode)
    (hgate : (traverseFull nodes st0).1.compiledImports.isSome = true ∨
      (traverseFull nodes st0).1.usesXcss = true) :
    (∀ c : CleanupItem, VisitEvent.applyAction c ∉ (traverseFull nodes st0).2) ∧
    (traverseFull nodes st0).1.pathsToCleanup = st0.pathsToCleanup ++ enqueuedItems nodes ∧
    (programExit (traverseFull nodes st0).1 scope prog).appliedLog =
      st0.pathsToCleanup ++ enqueuedItems nodes ∧
    (∀ (p : List TreeNode) (i : Nat),
      TreeNode.node i ∉ applyCleanupItem p { nodeId := i, action := CleanupAct.remove } ∧
      (∀ tn : TreeNode, tn ≠ TreeNode.node i →
        (tn ∈ applyCleanupItem p { nodeId := i, action := CleanupAct.remove } ↔ tn ∈ p)) ∧
      (∀ k : Nat,
        (applyCleanupItem p { nodeId := i, action := CleanupAct.replace })[k]? =
          (p[k]?).map (fun tn => if tn = TreeNode.node i then TreeNode.nullLit else tn))) := by
  have hq : (traverseFull nodes st0).1.pathsToCleanup =
      st0.pathsToCleanup ++ enqueuedItems nodes := by
    rw [traverseFull_fst]
  refine ⟨fun c => traverseFull_no_apply nodes st0 c, hq, ?_,
    fun p i => ⟨remove_not_mem p i, fun tn h => remove_mem_iff p i tn h,
      fun k => replace_getElem p i k⟩⟩
  have hcond := gate_false hgate
  simp only [programExit, hcond, Bool.false_eq_true, if_false]
  rw [applyCleanups_snd, hq]

/-- A finalizing state: the default fresh state plus an (empty)
compiledImports record, used by concrete witnesses. -/
def finalizingState : PState :=
  { mkState posixOps none "/proj" {} none with compiledImports := some emptyImports }

theorem cleanup_fifo_witness :
    (programExit (traverseFull [utilNode 5, utilNode 2] finalizingState).1 ⟨false, false⟩
        [TreeNode.node 2, TreeNode.node 5]).appliedLog =
      finalizingState.pathsToCleanup ++ enqueuedItems [utilNode 5, utilNode 2] :=
  (cleanup_fifo_lifecycle [utilNode 5, utilNode 2] finalizingState ⟨false, false⟩
      [TreeNode.node 2, TreeNode.node 5] (Or.inl rfl)).2.2.1

theorem originMatches_none (ops : PathOps) (m o : String) :
    originMatches ops none m o =
      (if m == DEFAULT_IMPORT_SOURCE || o == m then true else false) := rfl

theorem originMatches_some (ops : PathOps) (m o f : String) :
    originMatches ops (some f) m o =
      (if m == DEFAULT_IMPORT_SOURCE || o == m then true
       else if f != "" && strStartsWith m "." && strEndsWith m (ops.basename o) then
         ops.resolve (ops.dirname f) m == o
       else false) := rfl

theorem originMatches_iff (ops : PathOps) (fn : Option String) (m o : String) :
    originMatches ops fn m o = true ↔
      (m = DEFAULT_IMPORT_SOURCE ∨ o = m ∨
        (∃ f, fn = some f ∧ f ≠ "" ∧ strStartsWith m "." = true ∧
          strEndsWith m (ops.basename o) = true ∧ ops.resolve (ops.dirname f) m = o)) := by
  cases fn with
  | none =>
    rw [originMatches_none]
    by_cases h1 : (m == DEFAULT_IMPORT_SOURCE || o == m) = true
    · rw [if_pos h1]
      simp only [Bool.or_eq_true, beq_iff_eq] at h1
      exact iff_of_true rfl (by tauto)
    · rw [if_neg h1]
      simp only [Bool.or_eq_true, beq_iff_eq, not_or] at h1
      simp [h1.1, h1.2]
  | some f =>
    rw [originMatches_some]
    by_cases h1 : (m == DEFAULT_IMPORT_SOURCE || o == m) = true
    · rw [if_pos h1]
      simp only [Bool.or_eq_true, beq_iff_eq] at h1
      exact iff_of_true rfl (by tauto)
    · rw [if_neg h1]
      simp only [Bool.or_eq_true, beq_iff_eq, not_or] at h1
      by_cases h2 : (f != "" && strStartsWith m "." &&
          strEndsWith m (ops.basename o)) = true
      · rw [if_pos h2]
        simp only [Bool.and_eq_true, bne_iff_ne] at h2
        rw [beq_iff_eq]
        constructor
        · intro hres
          exact Or.inr (Or.inr ⟨f, rfl, h2.1.1, h2.1.2, h2.2, hres⟩)
        · rintro (h | h | ⟨f2, hf2, _, _, _, hres⟩)
          · exact absurd h h1.1
          · exact absurd h h1.2
          · cases Option.some.inj hf2
            exact hres
      · rw [if_neg h2]
        simp only [Bool.and_eq_true, bne_iff_ne, not_and] at h2
        refine iff_of_false (by simp) ?_
        rintro (h | h | ⟨f2, hf2, hne, hsw, hew, _⟩)
        · exact absurd h h1.1
        · exact absurd h h1.2
        · cases Option.some.inj hf2
          exact absurd hew (by simpa using h2 ⟨hne, hsw⟩)

/-- The general recognition characterization over any origin list. -/
theorem isCompiledModule_iff (ops : PathOps) (sources : List String) (fn : Option String)
    (m : String) :
    isCompiledModule ops sources fn m = true ↔
      ((sources ≠ [] ∧ m = DEFAULT_IMPORT_SOURCE) ∨ m ∈ sources ∨
        (∃ f, fn = some f ∧ f ≠ "" ∧ strStartsWith m "." = true ∧
          ∃ o ∈ sources, strEndsWith m (ops.basename o) = true ∧
            ops.resolve (ops.dirname f) m = o)) := by
  unfold isCompiledModule
  rw [List.any_eq_true]
  constructor
  · rintro ⟨o, ho, hpo⟩
    rcases (originMatches_iff ops fn m o).mp hpo with h | h | ⟨f, hf, hne, hsw, hew, hres⟩
    · exact Or.inl ⟨List.ne_nil_of_mem ho, h⟩
    · exact Or.inr (Or.inl (h ▸ ho))
    · exact Or.inr (Or.inr ⟨f, hf, hne, hsw, o, ho, hew, hres⟩)
  · rintro (⟨hne, h⟩ | h | ⟨f, hf, hne, hsw, o, ho, hew, hres⟩)
    · obtain ⟨o, ho⟩ := List.exists_mem_of_ne_nil _ hne
      exact ⟨o, ho, (originMatches_iff ops fn m o).mpr (Or.inl h)⟩
    · exact ⟨m, h, (originMatches_iff ops fn m m).mpr (Or.inr (Or.inl rfl))⟩
    · exact ⟨o, ho, (originMatches_iff ops fn m o).mpr
        (Or.inr (Or.inr ⟨f, hf, hne, hsw, hew, hres⟩))⟩

/-- C3: against the origin list built by pre(), a module specifier is
recognized iff it equals the default origin, equals one of the
configured origins exactly, or is relative and, subject to the
basename-suffix pre-check, resolves against the directory of the
importing file to a configured origin.  The relative branch requires a
nonempty filename; the backward direction of the second and third
disjuncts is the relative-path-equivalence property. -/
theorem module_recognition (ops : PathOps) (root : String) (cfg : Option (List String))
    (fn : Option String) (m : String) :
    isCompiledModule ops (mkImportSources ops root cfg) fn m = true ↔
      (m = DEFAULT_IMPORT_SOURCE ∨ m ∈ mkImportSources ops root cfg ∨
        (∃ f, fn = some f ∧ f ≠ "" ∧ strStartsWith m "." = true ∧
          ∃ o ∈ mkImportSources ops root cfg, strEndsWith m (ops.basename o) = true ∧
            ops.resolve (ops.dirname f) m = o)) := by
  rw [isCompiledModule_iff]
  have hne : mkImportSources ops root cfg ≠ [] := by
    unfold mkImportSources
    exact List.cons_ne_nil _ _
  constructor
  · rintro (⟨_, h⟩ | h) <;> tauto
  · rintro (h | h)
    · exact Or.inl ⟨hne, h⟩
    · exact Or.inr h

/-- C10 amended: when the compilation has no filename, the
relative-resolution branch never applies, so recognition reduces to
exact equality with the default origin or a configured origin.  (A
specifier that itself starts with a dot can still be recognized by
exact equality, because a configured origin joined onto a relative
project root can itself start with a dot.) -/
theorem no_filename_recognition (ops : PathOps) (root : String) (cfg : Option (List String))
    (m : String) :
    isCompiledModule ops (mkImportSources ops root cfg) none m = true ↔
      (m = DEFAULT_IMPORT_SOURCE ∨ m ∈ mkImportSources ops root cfg) := by
  rw [isCompiledModule_iff]
  have hne : mkImportSources ops root cfg ≠ [] := by
    unfold mkImportSources
    exact List.cons_ne_nil _ _
  constructor
  · rintro (⟨_, h⟩ | h | ⟨f, hf, _⟩)
    · exact Or.inl h
    · exact Or.inr h
    · cases hf
  · rintro (h | h)
    · exact Or.inl ⟨hne, h⟩
    · exact Or.inr (Or.inl h)

/-- C10 counterexample: with no filename, a relative module specifier
can still be recognized, because a configured origin that starts with
a dot is joined onto the project root, and with a relative root the
joined origin itself starts with a dot and can be matched exactly. -/
theorem relative_specifier_counterexample :
    isCompiledModule posixOps (mkImportSources posixOps ".." (some ["./x"])) none "../x" = true ∧
    strStartsWith "../x" "." = true := by
  constructor
  · decide
  · decide

theorem processSpecifier_eq (ci : CompiledImports) (s : Specifier) :
    processSpecifier ci s =
      (match specApiName s with
       | some a => (setImport ci a (specLocal s), true)
       | none => (ci, false)) := by
  cases s with
  | importSpecifier imported loc =>
    cases imported with
    | ident n =>
      by_cases e1 : n = "styled"
      · subst e1
        rfl
      · by_cases e2 : n = "ClassNames"
        · subst e2
          rfl
        · by_cases e3 : n = "css"
          · subst e3
            rfl
          · by_cases e4 : n = "keyframes"
            · subst e4
              rfl
            · by_cases e5 : n = "cssMap"
              · subst e5
                rfl
              · simp [processSpecifier, apiNames, matchesApi, specApiName,
                  e1, e2, e3, e4, e5]
    | strLit v => rfl
  | importDefaultSpecifier loc => rfl
  | importNamespaceSpecifier loc => rfl

theorem importStep_eq (acc : CompiledImports × List Specifier) (s : Specifier) :
    importStep acc s =
      (match specApiName s with
       | some a => (setImport acc.1 a (specLocal s), acc.2)
       | none => (acc.1, acc.2 ++ [s])) := by
  cases s with
  | importSpecifier imported loc =>
    simp only [importStep, isImportSpecifier, Bool.not_true, Bool.false_eq_true, if_false]
    rw [processSpecifier_eq]
    cases hq : specApiName (Specifier.importSpecifier imported loc) with
    | some a => simp [hq]
    | none => simp [hq]
  | importDefaultSpecifier loc => rfl
  | importNamespaceSpecifier loc => rfl

theorem keepSpec_eq (s : Specifier) : keepSpec s = (specApiName s).isNone := by
  cases s with
  | importSpecifier imported loc =>
    cases imported with
    | ident n =>
      by_cases hn : n ∈ apiNames
      · simp only [specApiName, if_pos hn, Option.isNone_some]
        fin_cases hn <;> rfl
      · simp only [specApiName, if_neg hn, Option.isNone_none]
        simp only [apiNames, List.mem_cons, List.not_mem_nil, or_false, not_or] at hn
        obtain ⟨d1, d2, d3, d4, d5⟩ := hn
        simp [keepSpec, matchesAnyApi, apiNames, matchesApi, d1, d2, d3, d4, d5]
    | strLit v => rfl
  | importDefaultSpecifier loc => rfl
  | importNamespaceSpecifier loc => rfl

theorem specApiName_some_matches {s : Specifier} {a : String}
    (h : specApiName s = some a) : matchesApi s a = true := by
  cases s with
  | importSpecifier imported loc =>
    cases imported with
    | ident n =>
      by_cases hn : n ∈ apiNames
      · rw [specApiName, if_pos hn] at h
        cases Option.some.inj h
        simp [matchesApi]
      · rw [specApiName, if_neg hn] at h
        cases h
    | strLit v => cases h
  | importDefaultSpecifier loc => cases h
  | importNamespaceSpecifier loc => cases h

theorem specApiName_some_ne {s : Specifier} {a a2 : String}
    (h : specApiName s = some a2) (hne : a ≠ a2) : matchesApi s a = false := by
  cases s with
  | importSpecifier imported loc =>
    cases imported with
    | ident n =>
      by_cases hn : n ∈ apiNames
      · rw [specApiName, if_pos hn] at h
        cases Option.some.inj h
        simp only [matchesApi, beq_eq_false_iff_ne, ne_eq]
        exact fun hc => hne hc.symm
      · rw [specApiName, if_neg hn] at h
        cases h
    | strLit v => cases h
  | importDefaultSpecifier loc => cases h
  | importNamespaceSpecifier loc => cases h

theorem specApiName_none_matches {s : Specifier} {a : String}
    (h : specApiName s = none) (ha : a ∈ apiNames) : matchesApi s a = false := by
  cases s with
  | importSpecifier imported loc =>
    cases imported with
    | ident n =>
      by_cases hn : n ∈ apiNames
      · rw [specApiName, if_pos hn] at h
        cases h
      · simp only [matchesApi, beq_eq_false_iff_ne, ne_eq]
        intro hna
        refine hn ?_
        rw [hna]
        exact ha
    | strLit v => rfl
  | importDefaultSpecifier loc => rfl
  | importNamespaceSpecifier loc => rfl

theorem importFold_snd (specs : List Specifier) :
    ∀ (ci0 : CompiledImports) (acc : List Specifier),
      (specs.foldl importStep (ci0, acc)).2 = acc ++ specs.filter keepSpec := by
  induction specs with
  | nil =>
    intro ci0 acc
    simp
  | cons s rest ih =>
    intro ci0 acc
    simp only [List.foldl, List.filter_cons]
    rw [importStep_eq]
    cases hq : specApiName s with
    | some a =>
      have hk : keepSpec s = false := by
        rw [keepSpec_eq, hq]
        rfl
      simp only [hk, if_false, Bool.false_eq_true]
      rw [ih]
    | none =>
      have hk : keepSpec s = true := by
        rw [keepSpec_eq, hq]
        rfl
      simp only [hk, if_true]
      rw [ih]
      simp

theorem importFold_fst (specs : List Specifier) :
    ∀ (ci0 : CompiledImports) (acc : List Specifier) (a : String), a ∈ apiNames →
      (specs.foldl importStep (ci0, acc)).1 a = (lastLocal a specs).or (ci0 a) := by
  induction specs with
  | nil =>
    intro ci0 acc a ha
    simp [lastLocal]
  | cons s rest ih =>
    intro ci0 acc a ha
    simp only [List.foldl, lastLocal]
    rw [importStep_eq]
    cases hq : specApiName s with
    | some a2 =>
      rw [ih _ _ a ha, Option.or_assoc]
      congr 1
      unfold setImport
      by_cases haa : a = a2
      · subst haa
        rw [specApiName_some_matches hq]
        simp
      · rw [specApiName_some_ne hq haa]
        simp [haa]
    | none =>
      rw [ih _ _ a ha]
      rw [specApiName_none_matches hq ha]
      simp

/-- C4: for a recognized module specifier the visitor ensures a
(possibly empty) compiledImports record, records each of the five API
names under the local name of its matching named specifier, removes
exactly the matching named specifiers, and removes the declaration
node iff no specifier remains; an unrecognized declaration and the
state are left completely untouched. -/
theorem import_declaration_processing (ops : PathOps) (sources : List String)
    (fn : Option String) (ci : Option CompiledImports) (decl : ImportDecl) :
    (isCompiledModule ops sources fn decl.source = false →
      processImportDeclaration ops sources fn ci decl = (some decl, ci)) ∧
    (isCompiledModule ops sources fn decl.source = true →
      ((processImportDeclaration ops sources fn ci decl).2).isSome = true ∧
      (processImportDeclaration ops sources fn ci decl).1 =
        (if decl.specifiers.filter keepSpec = [] then none
         else some { decl with specifiers := decl.specifiers.filter keepSpec }) ∧
      ((processImportDeclaration ops sources fn ci decl).1 = none ↔
        decl.specifiers.filter keepSpec = []) ∧
      (∀ a ∈ apiNames,
        ((processImportDeclaration ops sources fn ci decl).2.getD emptyImports) a =
          (lastLocal a decl.specifiers).or ((ci.getD emptyImports) a))) := by
  constructor
  · intro h
    simp [processImportDeclaration, h]
  · intro h
    have hsnd : (decl.specifiers.foldl importStep (ci.getD emptyImports, [])).2 =
        decl.specifiers.filter keepSpec := by
      rw [importFold_snd]
      simp
    have hbr : processImportDeclaration ops sources fn ci decl =
        (if (decl.specifiers.foldl importStep (ci.getD emptyImports, [])).2 = [] then
          (none, some (decl.specifiers.foldl importStep (ci.getD emptyImports, [])).1)
         else
          (some { decl with
              specifiers := (decl.specifiers.foldl importStep (ci.getD emptyImports, [])).2 },
           some (decl.specifiers.foldl importStep (ci.getD emptyImports, [])).1)) := by
      simp [processImportDeclaration, h]
    rw [hbr, hsnd]
    refine ⟨?_, ?_, ?_, ?_⟩
    · by_cases hfil : decl.specifiers.filter keepSpec = [] <;> simp [hfil]
    · by_cases hfil : decl.specifiers.filter keepSpec = [] <;> simp [hfil]
    · by_cases hfil : decl.specifiers.filter keepSpec = [] <;> simp [hfil]
    · intro a ha
      by_cases hfil : decl.specifiers.filter keepSpec = []
      · simp only [if_pos hfil, Option.getD_some]
        exact importFold_fst decl.specifiers (ci.getD emptyImports) [] a ha
      · simp only [if_neg hfil, Option.getD_some]
        exact importFold_fst decl.specifiers (ci.getD emptyImports) [] a ha

/-- A concrete recognized import declaration with an aliased styled
specifier and an unrelated default specifier. -/
def declW : ImportDecl :=
  { source := "@compiled/react"
    specifiers :=
      [Specifier.importSpecifier (ImportedName.ident "styled") "myStyled",
       Specifier.importDefaultSpecifier "other"] }

theorem import_declaration_witness :
    ((processImportDeclaration posixOps [DEFAULT_IMPORT_SOURCE] none none declW).2).isSome =
      true ∧
    (processImportDeclaration posixOps [DEFAULT_IMPORT_SOURCE] none none declW).1 =
      (if declW.specifiers.filter keepSpec = [] then none
       else some { declW with specifiers := declW.specifiers.filter keepSpec }) := by
  have h := (import_declaration_processing posixOps [DEFAULT_IMPORT_SOURCE] none none
    declW).2 (by decide)
  exact ⟨h.1, h.2.1⟩

theorem enterComment_usesXcss (st : PState) (c : String) :
    (enterComment st c).usesXcss = st.usesXcss := by
  unfold enterComment
  by_cases h1 : execPragma "@jsxImportSource" c = some DEFAULT_IMPORT_SOURCE <;>
    by_cases h2 : execPragma "@jsx" c = some "jsx" <;> simp [h1, h2]

theorem enterComment_opts (st : PState) (c : String) :
    (enterComment st c).opts = st.opts := by
  unfold enterComment
  by_cases h1 : execPragma "@jsxImportSource" c = some DEFAULT_IMPORT_SOURCE <;>
    by_cases h2 : execPragma "@jsx" c = some "jsx" <;> simp [h1, h2]

theorem foldEnter_usesXcss (comments : List String) (st : PState) :
    (comments.foldl enterComment st).usesXcss = st.usesXcss := by
  induction comments generalizing st with
  | nil => rfl
  | cons c rest ih =>
    simp only [List.foldl]
    rw [ih, enterComment_usesXcss]

theorem foldEnter_opts (comments : List String) (st : PState) :
    (comments.foldl enterComment st).opts = st.opts := by
  induction comments generalizing st with
  | nil => rfl
  | cons c rest ih =>
    simp only [List.foldl]
    rw [ih, enterComment_opts]

theorem enterComment_jsx_mono (st : PState) (c : String) (h : st.pragma.jsx = true) :
    (enterComment st c).pragma.jsx = true := by
  unfold enterComment
  by_cases h1 : execPragma "@jsxImportSource" c = some DEFAULT_IMPORT_SOURCE <;>
    by_cases h2 : execPragma "@jsx" c = some "jsx" <;> simp [h1, h2, h]

theorem enterComment_jsx_set (st : PState) (c : String)
    (h : execPragma "@jsx" c = some "jsx") : (enterComment st c).pragma.jsx = true := by
  unfold enterComment
  by_cases h1 : execPragma "@jsxImportSource" c = some DEFAULT_IMPORT_SOURCE <;> simp [h1, h]

theorem foldEnter_jsx_mono (comments : List String) (st : PState) (h : st.pragma.jsx = true) :
    (comments.foldl enterComment st).pragma.jsx = true := by
  induction comments generalizing st with
  | nil => exact h
  | cons c rest ih =>
    simp only [List.foldl]
    exact ih _ (enterComment_jsx_mono st c h)

theorem foldEnter_jsx_of_mem (comments : List String) (st : PState) (c : String)
    (hc : c ∈ comments) (hm : execPragma "@jsx" c = some "jsx") :
    (comments.foldl enterComment st).pragma.jsx = true := by
  induction comments generalizing st with
  | nil => cases hc
  | cons d rest ih =>
    simp only [List.foldl]
    rcases List.mem_cons.mp hc with h | h
    · subst h
      exact foldEnter_jsx_mono rest _ (enterComment_jsx_set st c hm)
    · exact ih _ h

theorem programEnter_pragma (comments : List String) (code : String) (st : PState) :
    (programEnter comments code st).pragma = (comments.foldl enterComment st).pragma := by
  simp only [programEnter]
  split <;> rfl

/-- C6 counterexample: the comment body matches the generic pragma
pattern (captured value h), yet Program.enter leaves the generic
pragma flag false, because the source additionally requires the
captured value to equal the word jsx. -/
theorem generic_pragma_counterexample :
    (execPragma "@jsx" "@jsx h").isSome = true ∧
    (programEnter ["@jsx h"] "" (mkState posixOps none "/proj" {} none)).pragma.jsx =
      false := by
  constructor
  · decide
  · decide

/-- C6 amended: whenever a leading comment matches the generic pragma
pattern and the captured value equals the word jsx, the generic
pragma flag is set true. -/
theorem generic_pragma_amended (comments : List String) (code : String) (st : PState)
    (c : String) (hc : c ∈ comments) (hm : execPragma "@jsx" c = some "jsx") :
    (programEnter comments code st).pragma.jsx = true := by
  have hp := programEnter_pragma comments code st
  rw [hp]
  exact foldEnter_jsx_of_mem comments st c hc hm

theorem generic_pragma_amended_witness :
    (programEnter ["* @jsx jsx"] "" (mkState posixOps none "/proj" {} none)).pragma.jsx =
      true :=
  generic_pragma_amended ["* @jsx jsx"] "" (mkState posixOps none "/proj" {} none)
    "* @jsx jsx" (by decide) (by decide)

/-- C7 counterexample: the raw text matches the attribute pattern in a
letter casing other than the two the source regex accepts (the
case-insensitive reading of the claim matches), the option is at its
default, yet the xcss flag stays false: the source regex only accepts
a lowercase or capitalized first letter, with css lowercase. -/
theorem xcss_scan_counterexample :
    specXcssMatch "<a XCSS=\x7bstyleA\x7d />" = true ∧
    (programEnter [] "<a XCSS=\x7bstyleA\x7d />"
      (mkState posixOps none "/proj" {} none)).usesXcss = false := by
  constructor
  · decide
  · decide

/-- C7 amended: with the processXcss option enabled (its default) and
the flag initially false, Program.enter sets the xcss flag iff the raw
text matches the source pattern, which accepts exactly a lowercase x
or uppercase X followed by the lowercase text css= and an opening
brace. -/
theorem xcss_scan_amended (comments : List String) (code : String) (st : PState)
    (h1 : st.opts.processXcss.getD true = true) (h2 : st.usesXcss = false) :
    ((programEnter comments code st).usesXcss = true ↔ testXcss code = true) := by
  have hu : (comments.foldl enterComment st).usesXcss = false := by
    rw [foldEnter_usesXcss, h2]
  have ho : (comments.foldl enterComment st).opts = st.opts := foldEnter_opts comments st
  simp only [programEnter, ho, h1, Bool.true_and]
  by_cases ht : testXcss code
  · simp [ht]
  · simp only [Bool.not_eq_true] at ht
    simp [ht, hu]

theorem xcss_scan_amended_witness :
    ((programEnter [] "<b xcss=\x7bstyleB\x7d />"
        (mkState posixOps none "/proj" {} none)).usesXcss = true ↔
      testXcss "<b xcss=\x7bstyleB\x7d />" = true) :=
  xcss_scan_amended [] "<b xcss=\x7bstyleB\x7d />"
    (mkState posixOps none "/proj" {} none) (by decide) (by decide)
